import Mathlib

/-!
Shallow embedding of the boxnotes2md renderer (src/main.go) and proofs about it.

Modelling conventions:
* Go strings are modelled as Lean `String` (a list of characters); all texts of
  interest are valid UTF-8, so Go's rune iteration corresponds to `String.data`.
* Go stdlib string helpers (`strings.Split`, `strings.Join`, `strings.Repeat`,
  `strings.ReplaceAll`, `strings.TrimSpace`, ...) are modelled by `go*`
  functions below, specialised to the ways the source calls them
  (e.g. `strings.Split` is only ever called with separator "\n").
* `map[string]interface{}` attribute maps are modelled as association lists of
  `AttrValue`; JSON numbers are modelled as integers (the renderer only reads
  integer-valued attributes; `int(float64)` truncation of genuinely fractional
  levels is outside the scope of these claims).
* `RenderContext` carries only the indentation, modelled as a `Nat` argument.
-/

/-- Value of an attribute in a node's or mark's `attrs` map (Go `interface{}`).
`other` stands for any JSON value the accessors reject (null, arrays, objects). -/
inductive AttrValue where
  | num (n : Int)
  | bool (b : Bool)
  | str (s : String)
  | other
deriving DecidableEq, Repr

/-- An inline formatting mark attached to a text run (Go `Mark`). -/
structure Mark where
  type : String
  attrs : List (String × AttrValue)
deriving DecidableEq, Repr

/-- A document tree node (Go `Node`). -/
inductive Node where
  | mk (type : String) (attrs : List (String × AttrValue)) (content : List Node)
      (text : String) (marks : List Mark)
deriving Repr

/-- The `type` field of a node. -/
def Node.type : Node → String
  | .mk ty _ _ _ _ => ty

/-- The `attrs` field of a node. -/
def Node.attrs : Node → List (String × AttrValue)
  | .mk _ a _ _ _ => a

/-- The `content` field of a node. -/
def Node.content : Node → List Node
  | .mk _ _ c _ _ => c

/-- The `text` field of a node. -/
def Node.text : Node → String
  | .mk _ _ _ t _ => t

/-- The `marks` field of a node. -/
def Node.marks : Node → List Mark
  | .mk _ _ _ _ m => m

/-- The decoded input document (Go `BoxNote`). -/
structure BoxNote where
  doc : Node

/-- Map lookup in an attribute map (Go `attrs[key]`; a `nil` map is `[]`). -/
def lookupAttr (attrs : List (String × AttrValue)) (key : String) : Option AttrValue :=
  match attrs with
  | [] => none
  | (k, v) :: rest => if k = key then some v else lookupAttr rest key

/-- Go `getIntAttr`: an integer attribute, defaulting to 0 when missing or
not numeric. -/
def getIntAttr (attrs : List (String × AttrValue)) (key : String) : Int :=
  match lookupAttr attrs key with
  | some (.num n) => n
  | _ => 0

/-- Go `getBoolAttr`: a boolean attribute, defaulting to false. -/
def getBoolAttr (attrs : List (String × AttrValue)) (key : String) : Bool :=
  match lookupAttr attrs key with
  | some (.bool b) => b
  | _ => false

/-- Go `getStringAttr`: a string attribute; `none` models `ok = false`. -/
def getStringAttr (attrs : List (String × AttrValue)) (key : String) : Option String :=
  match lookupAttr attrs key with
  | some (.str s) => some s
  | _ => none

/-- Go `clampInt`. -/
def clampInt (value minValue maxValue : Int) : Int :=
  if value < minValue then minValue
  else if value > maxValue then maxValue
  else value

/-! ### Models of the Go standard-library string helpers -/

/-- Go `strings.Repeat s n`. -/
def goRepeat (s : String) : Nat → String
  | 0 => ""
  | n + 1 => s ++ goRepeat s n

/-- Character-list core of `strings.Split` with a single-character separator. -/
def splitCh (c : Char) : List Char → List (List Char)
  | [] => [[]]
  | x :: xs =>
    if x = c then [] :: splitCh c xs
    else
      match splitCh c xs with
      | [] => [[x]]
      | h :: t => (x :: h) :: t

/-- Character-list core of `strings.Join`. -/
def joinCh (sep : List Char) : List (List Char) → List Char
  | [] => []
  | [x] => x
  | x :: xs => x ++ sep ++ joinCh sep xs

/-- Go `strings.Split s (String.singleton c)` (the source only splits on "\n"). -/
def goSplit (s : String) (c : Char) : List String :=
  (splitCh c s.data).map (fun l => ⟨l⟩)

/-- Go `strings.Join xs sep`. -/
def goJoin (sep : String) (xs : List String) : String :=
  ⟨joinCh sep.data (xs.map String.data)⟩

/-- Character-list core of `strings.ReplaceAll` with a single-character pattern. -/
def replaceCh (c : Char) (rep : List Char) : List Char → List Char
  | [] => []
  | x :: xs => (if x = c then rep else [x]) ++ replaceCh c rep xs

/-- Go `strings.ReplaceAll s (String.singleton c) rep`. -/
def replaceChar (s : String) (c : Char) (rep : String) : String :=
  ⟨replaceCh c rep.data s.data⟩

/-- Go `unicode.IsSpace` (the Unicode White_Space property). -/
def goIsSpace (c : Char) : Bool :=
  c == ' ' || c == '\t' || c == '\n' || c == '\r' || c == '\x0b' || c == '\x0c' ||
  c == '\x85' || c == '\xa0' || c == ' ' ||
  (' ' ≤ c && c ≤ ' ') ||
  c == ' ' || c == ' ' || c == ' ' || c == ' ' || c == '　'

/-- Go `strings.TrimSpace`. -/
def goTrimSpace (s : String) : String :=
  ⟨((s.data.dropWhile goIsSpace).reverse.dropWhile goIsSpace).reverse⟩

/-- Go `strings.TrimRight s " "` (drop trailing spaces). -/
def goTrimRightSpaces (s : String) : String :=
  ⟨(s.data.reverse.dropWhile (· == ' ')).reverse⟩

/-- Go `strings.HasPrefix`. -/
def goStartsWith (s p : String) : Bool :=
  decide (s.data.take p.data.length = p.data)

/-- Go `strings.HasSuffix`. -/
def goEndsWith (s p : String) : Bool :=
  decide (s.data.reverse.take p.data.length = p.data.reverse)

/-- Go `strings.Contains s (String.singleton c)`. -/
def goContains (s : String) (c : Char) : Bool :=
  s.data.contains c

/-- Go `firstRune` (`none` models `ok = false`). -/
def firstRune (s : String) : Option Char :=
  s.data.head?

/-- Go `lastRune`. -/
def lastRune (s : String) : Option Char :=
  s.data.getLast?

/-! ### Escaping and padding helpers (src/main.go lines 630-705) -/

/-- Go `escapeTableCell`. -/
def escapeTableCell (text : String) : String :=
  replaceChar text '|' "\\|"

/-- Single-pass expansion of one character under Go's `strings.NewReplacer`
used by `escapeLinkText`. -/
def linkEscapeChar (c : Char) : List Char :=
  if c = '\\' then ['\\', '\\']
  else if c = '[' then ['\\', '[']
  else if c = ']' then ['\\', ']']
  else if c = '(' then ['\\', '(']
  else if c = ')' then ['\\', ')']
  else [c]

/-- Character-list core of `escapeLinkText` (a `Replacer` makes one pass). -/
def linkEscCh : List Char → List Char
  | [] => []
  | c :: cs => linkEscapeChar c ++ linkEscCh cs

/-- Go `escapeLinkText`. -/
def escapeLinkText (text : String) : String :=
  ⟨linkEscCh text.data⟩

/-- Go `escapeForMarkdown`: sequential `ReplaceAll`s gated on the flags. -/
def escapeForMarkdown (text emDelimiter : String) (hasStrong hasStrike : Bool) : String :=
  let t1 := replaceChar text '\\' "\\\\"
  let t2 := if emDelimiter = "*" || hasStrong then replaceChar t1 '*' "\\*" else t1
  let t3 := if emDelimiter = "_" then replaceChar t2 '_' "\\_" else t2
  if hasStrike then replaceChar t3 '~' "\\~" else t3

/-- Go `isYakumono`: the fixed CJK punctuation/quotation/dash set. -/
def isYakumono (r : Char) : Bool :=
  r == '、' || r == '。' || r == '，' || r == '．' || r == '｡' || r == '､' ||
  r == '･' || r == '・' ||
  r == '：' || r == '；' || r == '！' || r == '？' || r == '!' || r == '?' ||
  r == '「' || r == '」' || r == '『' || r == '』' || r == '（' || r == '）' ||
  r == '［' || r == '］' || r == '【' || r == '】' ||
  r == '〈' || r == '〉' || r == '《' || r == '》' ||
  r == '“' || r == '”' || r == '‘' || r == '’' ||
  r == '…' || r == '‥' || r == '〜' || r == '～' || r == 'ー' || r == '—' ||
  r == '―' || r == '‐' || r == '‑' || r == 'ｰ'

/-- The zero-width space, Go `"​"`. -/
def zwsp : String := "​"

/-- The first statement block of Go `padWithZeroWidthSpace` (prepend a
zero-width space when the first rune is non-space yakumono). -/
def padFront (text : String) : String :=
  if !goStartsWith text zwsp then
    match firstRune text with
    | some r => if !goIsSpace r && isYakumono r then zwsp ++ text else text
    | none => text
  else text

/-- The second statement block of Go `padWithZeroWidthSpace`, operating on the
result of the first. -/
def padBack (text : String) : String :=
  if !goEndsWith text zwsp then
    match lastRune text with
    | some r => if !goIsSpace r && isYakumono r then text ++ zwsp else text
    | none => text
  else text

/-- Go `padWithZeroWidthSpace`. -/
def padWithZeroWidthSpace (text : String) : String :=
  if text = "" then text
  else padBack (padFront text)

/-! ### Mark rendering (src/main.go lines 419-533) -/

/-- Go `filterMarks`: drop the presentation-only marks. -/
def filterMarks (marks : List Mark) : List Mark :=
  marks.filter (fun mark =>
    !(mark.type == "author_id" || mark.type == "font_size" ||
      mark.type == "font_color" || mark.type == "highlight"))

/-- Go `markOrder`: the fixed outer-to-inner wrapper order. -/
def markOrder (markType : String) : Nat :=
  if markType = "link" then 0
  else if markType = "strong" then 1
  else if markType = "em" then 2
  else if markType = "underline" then 3
  else if markType = "strikethrough" then 4
  else if markType = "code" then 5
  else 100

/-- Go `hasMarkType`. -/
def hasMarkType (marks : List Mark) (markType : String) : Bool :=
  marks.any (fun mark => mark.type == markType)

/-- Go `maxConsecutiveBackticks`, as a fold carrying (current run, max run). -/
def mcbAux : List Char → Nat → Nat → Nat
  | [], _, mx => mx
  | c :: rest, cur, mx =>
    if c = '\x60' then
      let cur1 := cur + 1
      mcbAux rest cur1 (if cur1 > mx then cur1 else mx)
    else mcbAux rest 0 mx

/-- Go `maxConsecutiveBackticks`. -/
def maxConsecutiveBackticks (text : String) : Nat :=
  mcbAux text.data 0 0

/-- Go `wrapInlineCode`. -/
def wrapInlineCode (text : String) : String :=
  if !goContains text '\x60' then "\x60" ++ text ++ "\x60"
  else
    let fence := goRepeat "\x60" (maxConsecutiveBackticks text + 1)
    fence ++ text ++ fence

/-- The ordering relation passed to the stable sort in `applyMarks`
(Go `sort.SliceStable` with `markOrder(filtered[i].Type) < markOrder(filtered[j].Type)`;
a stable sort by a strict key comparison equals the stable insertion sort by the
non-strict key comparison). -/
def markLE (a b : Mark) : Prop := markOrder a.type ≤ markOrder b.type

instance : DecidableRel markLE := fun a b =>
  inferInstanceAs (Decidable (markOrder a.type ≤ markOrder b.type))

/-- The stable sort of the filtered marks in `applyMarks`. -/
def sortMarks (marks : List Mark) : List Mark :=
  List.insertionSort markLE marks

/-- One iteration of the wrapping loop at the bottom of Go `applyMarks`
(the loop body's `switch mark.Type`); `emDelimiter` is the delimiter chosen
before the loop. -/
def wrapMark (emDelimiter : String) (mark : Mark) (text : String) : String :=
  if mark.type = "link" then
    match getStringAttr mark.attrs "href" with
    | some href => if href = "" then text
        else "[" ++ escapeLinkText text ++ "](" ++ href ++ ")"
    | none => text
  else if mark.type = "strong" then "**" ++ text ++ "**"
  else if mark.type = "em" then emDelimiter ++ text ++ emDelimiter
  else if mark.type = "underline" then "<u>" ++ text ++ "</u>"
  else if mark.type = "strikethrough" then "~~" ++ text ++ "~~"
  else if mark.type = "code" then wrapInlineCode text
  else text

/-- Go `applyMarks`: the loop from the last sorted mark down to the first is
`List.foldr` of `wrapMark` over the sorted list. -/
def applyMarks (text : String) (marks : List Mark) : String :=
  let filtered := filterMarks marks
  if filtered.isEmpty then text
  else
    let hasStrong := hasMarkType filtered "strong"
    let hasEm := hasMarkType filtered "em"
    let hasStrike := hasMarkType filtered "strikethrough"
    let hasCode := hasMarkType filtered "code"
    let hasLink := hasMarkType filtered "link"
    let emDelimiter := if hasStrong && hasEm then "_" else "*"
    let t1 := if !hasCode then escapeForMarkdown text emDelimiter hasStrong hasStrike else text
    let t2 := if (hasStrong || hasEm || hasStrike || hasCode) && !hasLink
      then padWithZeroWidthSpace t1 else t1
    List.foldr (wrapMark emDelimiter) t2 (sortMarks filtered)

/-! ### Inline renderer (src/main.go lines 220-235) -/

/-- Go `renderInline`: concatenation over the nodes of an inline sequence. -/
def renderInline : List Node → String
  | [] => ""
  | Node.mk ty _ content txt mks :: rest =>
    (if ty = "text" then applyMarks txt mks
     else if ty = "hard_break" then "\\\n"
     else if content.length > 0 then renderInline content
     else "") ++ renderInline rest

/-! ### Table layout (src/main.go lines 351-417, 707-735) -/

/-- Go `normalizeRow`: pad or truncate a row to the column count. -/
def normalizeRow (row : List String) (colCount : Nat) : List String :=
  if row.length = colCount then row
  else if row.length > colCount then row.take colCount
  else row ++ List.replicate (colCount - row.length) ""

/-- Go `formatTableRow` (the in-place trim only affects already-consumed rows). -/
def formatTableRow (row : List String) : String :=
  "| " ++ goJoin " | " (row.map goTrimSpace) ++ " |"

/-- Go `formatTableSeparator`. -/
def formatTableSeparator (colCount : Nat) : String :=
  if colCount = 0 then ""
  else "| " ++ goJoin " | " (List.replicate colCount "---") ++ " |"

/-- The parts accumulated by Go `renderCellContent` before the "<br>" join. -/
def renderCellParts : List Node → Nat → List String
  | [], _ => []
  | Node.mk ty _ content txt mks :: rest, ind =>
    (if ty = "paragraph" then
      if content.length > 0 then [renderInline content] else []
     else if ty = "text" then [applyMarks txt mks]
     else if content.length > 0 then [goJoin "<br>" (renderCellParts content ind)]
     else []) ++ renderCellParts rest ind

/-- Go `renderCellContent`. -/
def renderCellContent (nodes : List Node) (ind : Nat) : String :=
  goJoin "<br>" (renderCellParts nodes ind)

/-- Go `renderTableCell`. -/
def renderTableCell (cell : Node) (ind : Nat) : String :=
  escapeTableCell (replaceChar (renderCellContent cell.content ind) '\n' "<br>")

/-- The cell collection loop of Go `renderTableRow`. -/
def renderTableRowCells : List Node → Nat → List String
  | [], _ => []
  | cell :: rest, ind =>
    (if cell.type = "table_header" ∨ cell.type = "table_cell"
     then [renderTableCell cell ind] else []) ++ renderTableRowCells rest ind

/-- Go `renderTableRow`. -/
def renderTableRow (row : Node) (ind : Nat) : List String :=
  renderTableRowCells row.content ind

/-- The row collection loop of Go `renderTable` (skips non-`table_row` children). -/
def collectRows : List Node → Nat → List (List String)
  | [], _ => []
  | row :: rest, ind =>
    if row.type = "table_row" then renderTableRow row ind :: collectRows rest ind
    else collectRows rest ind

/-- The column-count loop of Go `renderTable`: the maximum row width. -/
def colCountOf (rows : List (List String)) : Nat :=
  rows.foldl (fun acc row => if row.length > acc then row.length else acc) 0

/-- Go `renderTable`. -/
def renderTable (node : Node) (ind : Nat) : String :=
  match collectRows node.content ind with
  | [] => ""
  | r0 :: rest =>
    let colCount := colCountOf (r0 :: rest)
    if colCount = 0 then ""
    else
      goJoin "\n"
        (formatTableRow (normalizeRow r0 colCount) ::
         formatTableSeparator colCount ::
         rest.map (fun row => formatTableRow (normalizeRow row colCount)))

/-! ### Line-level indentation helpers (src/main.go lines 591-628) -/

/-- Go `indentMultiline`: indent every line but the first. -/
def indentMultiline (text : String) (indent : Nat) : String :=
  match goSplit text '\n' with
  | [] => text
  | first :: rest => goJoin "\n" (first :: rest.map (fun line => goRepeat " " indent ++ line))

/-- Go `indentAllLines`. -/
def indentAllLines (text : String) (indent : Nat) : String :=
  if text = "" then ""
  else
    goJoin "\n" ((goSplit text '\n').map (fun line =>
      if line = "" then goRepeat " " indent else goRepeat " " indent ++ line))

/-- Go `prefixLines`. -/
def prefixLines (text pre : String) : String :=
  goJoin "\n" ((goSplit text '\n').map (fun line =>
    if line = "" then goTrimRightSpaces pre else pre ++ line))

/-! ### Block renderer, lists and blockquotes (src/main.go lines 154-349)

The Go functions `renderBlocks`, `renderBlock`, `renderList`, `renderCheckList`,
`renderListItem` and `renderBlockquote` are mutually recursive; the loops inside
them (with their `hasItem` state) are modelled as the `...Aux` list walkers. -/

mutual

/-- Go `renderBlocks`: the kept blocks joined by blank lines. -/
def renderBlocks (nodes : List Node) (ind : Nat) : String :=
  goJoin "\n\n" (renderBlocksList nodes ind)

/-- The loop of Go `renderBlocks`: the blocks with `keep = true`. -/
def renderBlocksList : List Node → Nat → List String
  | [], _ => []
  | node :: rest, ind =>
    match renderBlock node ind with
    | (block, true) => block :: renderBlocksList rest ind
    | (_, false) => renderBlocksList rest ind

/-- Go `renderBlock`: dispatch on the node type; the boolean is Go's `keep`. -/
def renderBlock : Node → Nat → String × Bool
  | Node.mk ty attrs content txt mks, ind =>
    if ty = "heading" then
      let level := clampInt (getIntAttr attrs "level") 1 6
      (goRepeat "#" level.toNat ++ " " ++ renderInline content, true)
    else if ty = "paragraph" then
      if content.length = 0 then ("", true) else (renderInline content, true)
    else if ty = "hard_break" then ("\\\n", true)
    else if ty = "bullet_list" then
      (renderList (Node.mk ty attrs content txt mks) ind "- ", true)
    else if ty = "ordered_list" then
      (renderList (Node.mk ty attrs content txt mks) ind "1. ", true)
    else if ty = "list_item" then
      (goJoin "\n" (renderListItem (Node.mk ty attrs content txt mks) ind "- "), true)
    else if ty = "check_list" then
      (renderCheckList (Node.mk ty attrs content txt mks) ind, true)
    else if ty = "check_list_item" then
      let pre := if getBoolAttr attrs "checked" then "- [x] " else "- [ ] "
      (goJoin "\n" (renderListItem (Node.mk ty attrs content txt mks) ind pre), true)
    else if ty = "horizontal_rule" then ("---", true)
    else if ty = "blockquote" then (renderBlockquote content ind, true)
    else if ty = "call_out_box" then (renderBlockquote content ind, true)
    else if ty = "table" then (renderTable (Node.mk ty attrs content txt mks) ind, true)
    else if content.length = 0 then ("", false)
    else (renderBlocks content ind, true)

/-- Go `renderList`. -/
def renderList : Node → Nat → String → String
  | Node.mk _ _ content _ _, ind, pre => goJoin "\n" (renderListAux content ind pre false)

/-- The loop of Go `renderList`, with its `hasItem` state. -/
def renderListAux : List Node → Nat → String → Bool → List String
  | [], _, _, _ => []
  | item :: rest, ind, pre, hasItem =>
    if item.type = "list_item" then
      renderListItem item ind pre ++ renderListAux rest ind pre true
    else if item.type = "bullet_list" then
      (if hasItem then
        let nested := renderList item (ind + 2) "- "
        if nested = "" then [] else goSplit nested '\n'
       else []) ++ renderListAux rest ind pre hasItem
    else if item.type = "ordered_list" then
      (if hasItem then
        let nested := renderList item (ind + 2) "1. "
        if nested = "" then [] else goSplit nested '\n'
       else []) ++ renderListAux rest ind pre hasItem
    else if item.type = "check_list" then
      (if hasItem then
        let nested := renderCheckList item (ind + 2)
        if nested = "" then [] else goSplit nested '\n'
       else []) ++ renderListAux rest ind pre hasItem
    else renderListAux rest ind pre hasItem

/-- Go `renderCheckList`. -/
def renderCheckList : Node → Nat → String
  | Node.mk _ _ content _ _, ind => goJoin "\n" (renderCheckListAux content ind false)

/-- The loop of Go `renderCheckList`, with its `hasItem` state. -/
def renderCheckListAux : List Node → Nat → Bool → List String
  | [], _, _ => []
  | item :: rest, ind, hasItem =>
    if item.type = "check_list_item" then
      let pre := if getBoolAttr item.attrs "checked" then "- [x] " else "- [ ] "
      renderListItem item ind pre ++ renderCheckListAux rest ind true
    else if item.type = "bullet_list" then
      (if hasItem then
        let nested := renderList item (ind + 2) "- "
        if nested = "" then [] else goSplit nested '\n'
       else []) ++ renderCheckListAux rest ind hasItem
    else if item.type = "ordered_list" then
      (if hasItem then
        let nested := renderList item (ind + 2) "1. "
        if nested = "" then [] else goSplit nested '\n'
       else []) ++ renderCheckListAux rest ind hasItem
    else if item.type = "check_list" then
      (if hasItem then
        let nested := renderCheckList item (ind + 2)
        if nested = "" then [] else goSplit nested '\n'
       else []) ++ renderCheckListAux rest ind hasItem
    else renderCheckListAux rest ind hasItem

/-- Go `renderListItem`; in the non-paragraph branch the loop runs over all of
`node.Content` including the first child. -/
def renderListItem : Node → Nat → String → List String
  | Node.mk _ _ content _ _, ind, pre =>
    let prefixLine := goRepeat " " ind ++ pre
    match content with
    | [] => [prefixLine]
    | first :: restChildren =>
      if first.type = "paragraph" then
        let txt := indentMultiline (renderInline first.content) prefixLine.length
        (prefixLine ++ txt) :: renderItemChildren restChildren ind
      else
        prefixLine :: renderItemChildren (first :: restChildren) ind

/-- The child-block loop of Go `renderListItem`. -/
def renderItemChildren : List Node → Nat → List String
  | [], _ => []
  | child :: rest, ind =>
    match renderBlock child (ind + 2) with
    | (_, false) => renderItemChildren rest ind
    | (block, true) =>
      (if block = "" then [goRepeat " " (ind + 2)] else [indentAllLines block (ind + 2)]) ++
      renderItemChildren rest ind

/-- Go `renderBlockquote` (also used for `call_out_box`). -/
def renderBlockquote (nodes : List Node) (ind : Nat) : String :=
  let content := renderBlocks nodes ind
  if content = "" then ">" else prefixLines content "> "

end

/-! ### Top level (src/main.go lines 81-90, 154-161) -/

/-- Go `renderNode` (both switch arms render the node's content as blocks). -/
def renderNode (node : Node) (ind : Nat) : String :=
  if node.type = "doc" then renderBlocks node.content ind
  else renderBlocks node.content ind

/-- Go `renderBoxNote`. The `json.Unmarshal` step (Go standard library, outside
this repository) is abstracted: `none` models an input that fails to parse as
JSON, `some note` the decoded `BoxNote`. The result models Go's
`(string, error)` pair, with `none` in the second component for `err == nil`. -/
def renderBoxNote (input : Option BoxNote) : String × Option String :=
  match input with
  | none => ("", some "failed to parse JSON")
  | some note =>
    if note.doc.type = "" then ("", some "missing doc node")
    else (renderNode note.doc 0, none)

/-! ### Infrastructure: split/join/replace lemmas -/

theorem splitCh_ne_nil (c : Char) : ∀ l, splitCh c l ≠ []
  | [] => by simp [splitCh]
  | x :: xs => by
    simp only [splitCh]
    split
    · simp
    · split <;> simp

theorem not_mem_of_mem_splitCh {c : Char} : ∀ {l xs : List Char}, xs ∈ splitCh c l → c ∉ xs
  | [], xs, h => by
    simp [splitCh] at h
    simp [h]
  | x :: l, xs, h => by
    by_cases hx : x = c
    · simp only [splitCh, if_pos hx] at h
      rcases List.mem_cons.mp h with h1 | h1
      · simp [h1]
      · exact not_mem_of_mem_splitCh h1
    · simp only [splitCh, if_neg hx] at h
      rcases heq : splitCh c l with _ | ⟨hd, tl⟩
      · exact absurd heq (splitCh_ne_nil c l)
      · rw [heq] at h
        rcases List.mem_cons.mp h with h1 | h1
        · subst h1
          intro hmem
          rcases List.mem_cons.mp hmem with h2 | h2
          · exact hx h2.symm
          · exact not_mem_of_mem_splitCh (heq ▸ List.mem_cons_self hd tl) h2
        · exact not_mem_of_mem_splitCh (heq ▸ List.mem_cons_of_mem hd h1)

theorem splitCh_of_not_mem {c : Char} : ∀ {l : List Char}, c ∉ l → splitCh c l = [l]
  | [], _ => rfl
  | x :: l, h => by
    have hx : ¬x = c := fun hh => h (hh ▸ List.mem_cons_self x l)
    have hl : c ∉ l := fun hh => h (List.mem_cons_of_mem x hh)
    simp [splitCh, hx, splitCh_of_not_mem hl]

theorem splitCh_append {c : Char} :
    ∀ {xs : List Char}, c ∉ xs → ∀ l, splitCh c (xs ++ c :: l) = xs :: splitCh c l
  | [], _, l => by simp [splitCh]
  | x :: xs, h, l => by
    have hx : ¬x = c := fun hh => h (hh ▸ List.mem_cons_self x xs)
    have hxs : c ∉ xs := fun hh => h (List.mem_cons_of_mem x hh)
    simp [splitCh, hx, splitCh_append hxs l]

theorem splitCh_joinCh {c : Char} :
    ∀ {xss : List (List Char)}, (∀ xs ∈ xss, c ∉ xs) → xss ≠ [] →
      splitCh c (joinCh [c] xss) = xss
  | [], _, hne => absurd rfl hne
  | [xs], h, _ => by
    simp only [joinCh]
    exact splitCh_of_not_mem (h xs (List.mem_singleton.mpr rfl))
  | xs :: ys :: t, h, _ => by
    have h1 : c ∉ xs := h xs (List.mem_cons_self _ _)
    have h2 : ∀ zs ∈ ys :: t, c ∉ zs := fun zs hz => h zs (List.mem_cons_of_mem _ hz)
    calc splitCh c (joinCh [c] (xs :: ys :: t))
        = splitCh c (xs ++ c :: joinCh [c] (ys :: t)) := by simp [joinCh]
      _ = xs :: splitCh c (joinCh [c] (ys :: t)) := splitCh_append h1 _
      _ = xs :: ys :: t := by rw [splitCh_joinCh h2 (by simp)]

theorem goSplit_goJoin {xs : List String} (h : ∀ s ∈ xs, '\n' ∉ s.data) (hne : xs ≠ []) :
    goSplit (goJoin "\n" xs) '\n' = xs := by
  have hmap : ∀ l ∈ xs.map String.data, '\n' ∉ l := by
    intro l hl
    rcases List.mem_map.mp hl with ⟨s, hs, rfl⟩
    exact h s hs
  have hne' : xs.map String.data ≠ [] := by
    simpa using hne
  show (splitCh '\n' (joinCh ['\n'] (xs.map String.data))).map (fun l => (⟨l⟩ : String)) = xs
  rw [splitCh_joinCh hmap hne', List.map_map]
  exact List.map_congr_left (fun _ _ => rfl) |>.trans (List.map_id xs)

theorem mem_goSplit_no_nl {s t : String} (h : s ∈ goSplit t '\n') : '\n' ∉ s.data := by
  rcases List.mem_map.mp h with ⟨l, hl, rfl⟩
  exact not_mem_of_mem_splitCh hl

theorem mem_joinCh {a : Char} {sep : List Char} :
    ∀ {xss : List (List Char)}, a ∈ joinCh sep xss → a ∈ sep ∨ ∃ xs ∈ xss, a ∈ xs
  | [], h => by simp [joinCh] at h
  | [xs], h => by
    simp only [joinCh] at h
    exact Or.inr ⟨xs, List.mem_singleton.mpr rfl, h⟩
  | xs :: ys :: t, h => by
    simp only [joinCh, List.mem_append] at h
    rcases h with (h | h) | h
    · exact Or.inr ⟨xs, List.mem_cons_self _ _, h⟩
    · exact Or.inl h
    · rcases mem_joinCh h with h1 | ⟨zs, hz, ha⟩
      · exact Or.inl h1
      · exact Or.inr ⟨zs, List.mem_cons_of_mem _ hz, ha⟩

theorem not_mem_replaceCh_self {c : Char} {rep : List Char} (h : c ∉ rep) :
    ∀ l, c ∉ replaceCh c rep l
  | [] => by simp [replaceCh]
  | x :: xs => by
    simp only [replaceCh, List.mem_append]
    rintro (hx | hx)
    · by_cases hxc : x = c
      · rw [if_pos hxc] at hx
        exact h hx
      · rw [if_neg hxc] at hx
        exact hxc (List.mem_singleton.mp hx ▸ rfl)
    · exact not_mem_replaceCh_self h xs hx

theorem not_mem_replaceCh {a c : Char} {rep : List Char} (h2 : a ∉ rep) :
    ∀ {l}, a ∉ l → a ∉ replaceCh c rep l
  | [], _ => by simp [replaceCh]
  | x :: xs, h1 => by
    have hxa : ¬a = x := fun hh => h1 (hh ▸ List.mem_cons_self x xs)
    have hxs : a ∉ xs := fun hh => h1 (List.mem_cons_of_mem x hh)
    simp only [replaceCh, List.mem_append]
    rintro (hx | hx)
    · by_cases hxc : x = c
      · rw [if_pos hxc] at hx
        exact h2 hx
      · rw [if_neg hxc] at hx
        exact hxa (List.mem_singleton.mp hx)
    · exact not_mem_replaceCh h2 hxs hx

theorem mem_goTrimSpace_data {a : Char} {s : String} (h : a ∈ (goTrimSpace s).data) :
    a ∈ s.data := by
  simp only [goTrimSpace, List.mem_reverse] at h
  have h1 := (List.dropWhile_sublist goIsSpace).subset h
  rw [List.mem_reverse] at h1
  exact (List.dropWhile_sublist goIsSpace).subset h1

theorem goRepeat_single_data {s : String} {c : Char} (h : s.data = [c]) :
    ∀ n, (goRepeat s n).data = List.replicate n c
  | 0 => rfl
  | n + 1 => by
    show (s ++ goRepeat s n).data = _
    rw [String.data_append, h, goRepeat_single_data h n, List.replicate_succ]
    rfl

/-! ### C8: ignored marks -/

/-- C8: the marks `author_id`, `font_size`, `font_color` and `highlight` never
affect the output: a run carrying only such marks renders as the raw text
unchanged, and inserting (equivalently, removing) such a mark anywhere in a
mark list leaves the rendered output identical. -/
theorem ignored_marks_never_affect_output :
    (∀ (t : String) (ms : List Mark),
        (∀ m ∈ ms, m.type = "author_id" ∨ m.type = "font_size" ∨
          m.type = "font_color" ∨ m.type = "highlight") →
        applyMarks t ms = t) ∧
    (∀ (t : String) (ms1 ms2 : List Mark) (m : Mark),
        (m.type = "author_id" ∨ m.type = "font_size" ∨
          m.type = "font_color" ∨ m.type = "highlight") →
        applyMarks t (ms1 ++ m :: ms2) = applyMarks t (ms1 ++ ms2)) := by
  constructor
  · intro t ms h
    have hnil : filterMarks ms = [] := by
      apply List.filter_eq_nil_iff.mpr
      intro m hm
      rcases h m hm with h1 | h1 | h1 | h1 <;> simp [h1]
    simp [applyMarks, hnil]
  · intro t ms1 ms2 m h
    have hf : filterMarks (ms1 ++ m :: ms2) = filterMarks (ms1 ++ ms2) := by
      simp only [filterMarks, List.filter_append, List.filter_cons]
      rcases h with h1 | h1 | h1 | h1 <;> simp [h1]
    simp only [applyMarks, hf]

/-- Witness for C8 at concrete inputs. -/
theorem ignored_marks_never_affect_output_witness :
    applyMarks "hi" [Mark.mk "highlight" [], Mark.mk "font_size" []] = "hi" ∧
    applyMarks "hi" ([Mark.mk "strong" []] ++ Mark.mk "author_id" [] :: [Mark.mk "em" []]) =
      applyMarks "hi" ([Mark.mk "strong" []] ++ [Mark.mk "em" []]) := by
  constructor
  · exact ignored_marks_never_affect_output.1 "hi" _ (by intro m hm; fin_cases hm <;> simp)
  · exact ignored_marks_never_affect_output.2 "hi" _ _ _ (Or.inl rfl)

/-! ### C6: heading level clamping -/

theorem takeWhile_hash_replicate (l : List Char) :
    ∀ n, List.takeWhile (· == '#') (List.replicate n '#' ++ ' ' :: l) = List.replicate n '#'
  | 0 => by simp [List.takeWhile_cons]
  | n + 1 => by
    simp only [List.replicate_succ, List.cons_append, List.takeWhile_cons]
    rw [takeWhile_hash_replicate l n]
    simp

theorem clampInt_one_six_bounds (v : Int) :
    1 ≤ (clampInt v 1 6).toNat ∧ (clampInt v 1 6).toNat ≤ 6 := by
  unfold clampInt
  split
  · omega
  · split <;> omega

/-- C6: a heading emits exactly `clamp(level, 1, 6)` hash marks, a space, and
the inline-rendered content; level 0 gives one mark, level 7 gives six, and a
missing or non-numeric level gives one. -/
theorem heading_marker_clamped :
    (∀ (attrs : List (String × AttrValue)) (content : List Node)
        (txt : String) (mks : List Mark) (ind : Nat),
      renderBlock (Node.mk "heading" attrs content txt mks) ind =
        (goRepeat "#" (clampInt (getIntAttr attrs "level") 1 6).toNat ++ " " ++
          renderInline content, true) ∧
      ((renderBlock (Node.mk "heading" attrs content txt mks) ind).1.data.takeWhile
          (· == '#')).length = (clampInt (getIntAttr attrs "level") 1 6).toNat ∧
      1 ≤ (clampInt (getIntAttr attrs "level") 1 6).toNat ∧
      (clampInt (getIntAttr attrs "level") 1 6).toNat ≤ 6) ∧
    clampInt 0 1 6 = 1 ∧ clampInt 7 1 6 = 6 ∧
    getIntAttr [] "level" = 0 ∧
    getIntAttr [("level", AttrValue.str "big")] "level" = 0 ∧
    clampInt (getIntAttr [] "level") 1 6 = 1 := by
  refine ⟨?_, by decide, by decide, rfl, rfl, by decide⟩
  intro attrs content txt mks ind
  have hblock : renderBlock (Node.mk "heading" attrs content txt mks) ind =
      (goRepeat "#" (clampInt (getIntAttr attrs "level") 1 6).toNat ++ " " ++
        renderInline content, true) := by
    simp [renderBlock]
  refine ⟨hblock, ?_, clampInt_one_six_bounds _⟩
  rw [hblock]
  show ((goRepeat "#" _ ++ " " ++ renderInline content).data.takeWhile (· == '#')).length = _
  rw [String.data_append, String.data_append,
    goRepeat_single_data (c := '#') rfl, List.append_assoc]
  show (List.takeWhile (· == '#') (List.replicate _ '#' ++ ' ' :: (renderInline content).data)).length = _
  rw [takeWhile_hash_replicate, List.length_replicate]

/-! ### C7: inline-code fence length -/

theorem mcbAux_ge : ∀ (l : List Char) (cur mx : Nat), mx ≤ mcbAux l cur mx
  | [], _, _ => le_refl _
  | c :: rest, cur, mx => by
    simp only [mcbAux]
    split
    · split
      · exact le_trans (by omega) (mcbAux_ge rest (cur + 1) (cur + 1))
      · exact mcbAux_ge rest (cur + 1) mx
    · exact mcbAux_ge rest 0 mx

theorem mcbAux_of_prefix {k : Nat} (hk : 1 ≤ k) :
    ∀ {l : List Char} (cur mx : Nat), List.replicate k '\x60' <+: l →
      cur + k ≤ mcbAux l cur mx := by
  induction k with
  | zero => omega
  | succ k ih =>
    intro l cur mx hp
    rcases hp with ⟨t, ht⟩
    rw [List.replicate_succ] at ht
    subst ht
    rw [List.cons_append]
    have hstep : mcbAux ('\x60' :: (List.replicate k '\x60' ++ t)) cur mx =
        mcbAux (List.replicate k '\x60' ++ t) (cur + 1)
          (if cur + 1 > mx then cur + 1 else mx) := by
      simp [mcbAux]
    rw [hstep]
    by_cases hk0 : k = 0
    · subst hk0
      have h1 : (if cur + 1 > mx then cur + 1 else mx) ≥ cur + 1 := by split <;> omega
      have h2 := mcbAux_ge (List.replicate 0 '\x60' ++ t) (cur + 1)
        (if cur + 1 > mx then cur + 1 else mx)
      omega
    · have hpre : List.replicate k '\x60' <+: List.replicate k '\x60' ++ t := ⟨t, rfl⟩
      have h2 := ih (by omega) (cur + 1) (if cur + 1 > mx then cur + 1 else mx) hpre
      omega

theorem mcbAux_of_infix {k : Nat} :
    ∀ {l : List Char} (cur mx : Nat), List.replicate k '\x60' <:+: l →
      k ≤ mcbAux l cur mx := by
  intro l
  induction l with
  | nil =>
    intro cur mx h
    have := List.IsInfix.sublist h
    simp only [List.sublist_nil] at this
    have : k = 0 := by simpa [List.replicate_eq_nil_iff] using this
    omega
  | cons c rest ih =>
    intro cur mx h
    rcases List.infix_cons_iff.mp h with h1 | h1
    · by_cases hk0 : k = 0
      · subst hk0
        exact Nat.zero_le _
      · have := mcbAux_of_prefix (by omega) cur mx h1
        omega
    · simp only [mcbAux]
      split
      · exact ih _ _ h1
      · exact ih _ _ h1

theorem mcbAux_no_backtick : ∀ {l : List Char}, '\x60' ∉ l → ∀ mx cur, mcbAux l cur mx = mx
  | [], _, _, _ => rfl
  | c :: rest, h, mx, cur => by
    have hc : ¬c = '\x60' := fun hh => h (hh ▸ List.mem_cons_self c rest)
    have hrest : '\x60' ∉ rest := fun hh => h (List.mem_cons_of_mem c hh)
    simp only [mcbAux, if_neg hc]
    exact mcbAux_no_backtick hrest mx 0

/-- C7: inline code is wrapped on both sides by a backtick fence of length
(maximal backtick run in the text) + 1, and a backtick run of the fence's
length never occurs inside the text, so the fence cannot collide with one. -/
theorem inline_code_fence (t : String) :
    wrapInlineCode t =
      goRepeat "\x60" (maxConsecutiveBackticks t + 1) ++ t ++
        goRepeat "\x60" (maxConsecutiveBackticks t + 1) ∧
    ¬ List.replicate (maxConsecutiveBackticks t + 1) '\x60' <:+: t.data := by
  constructor
  · by_cases h : goContains t '\x60'
    · simp [wrapInlineCode, h]
    · have hmem : '\x60' ∉ t.data := by
        simpa [goContains] using h
      have h0 : maxConsecutiveBackticks t = 0 := mcbAux_no_backtick hmem 0 0
      simp [wrapInlineCode, h, h0, goRepeat]
  · intro hinf
    have := mcbAux_of_infix 0 0 hinf
    have : maxConsecutiveBackticks t + 1 ≤ maxConsecutiveBackticks t := this
    omega

/-! ### C9: error behaviour of renderBoxNote -/

/-- C9: rendering fails exactly on malformed input (unparsable JSON, modelled
by `none`, or a decoded document whose root has an empty type tag); on every
decoded document with a root tag it succeeds, and a failed render returns the
empty string as its text. -/
theorem renderBoxNote_error_characterization :
    (∀ input : Option BoxNote,
      ((renderBoxNote input).2 = none ↔ ∃ note, input = some note ∧ note.doc.type ≠ "")) ∧
    (∀ input : Option BoxNote, (renderBoxNote input).2 ≠ none → (renderBoxNote input).1 = "") ∧
    (∀ note : BoxNote, note.doc.type ≠ "" →
      renderBoxNote (some note) = (renderNode note.doc 0, none)) := by
  refine ⟨?_, ?_, ?_⟩
  · intro input
    cases input with
    | none => simp [renderBoxNote]
    | some note =>
      by_cases h : note.doc.type = "" <;> simp [renderBoxNote, h]
  · intro input
    cases input with
    | none => simp [renderBoxNote]
    | some note =>
      by_cases h : note.doc.type = "" <;> simp [renderBoxNote, h]
  · intro note h
    simp [renderBoxNote, h]

/-- Witness for C9: a well-formed document (even one made only of unsupported
node types) succeeds, and the parse-failure case returns no text. -/
theorem renderBoxNote_error_characterization_witness :
    renderBoxNote (some ⟨Node.mk "doc" [] [Node.mk "mystery_widget" [] [] "" []] "" []⟩) =
      (renderNode (Node.mk "doc" [] [Node.mk "mystery_widget" [] [] "" []] "" []) 0, none) ∧
    (renderBoxNote none).1 = "" := by
  constructor
  · exact renderBoxNote_error_characterization.2.2 _ (by simp [Node.type])
  · exact renderBoxNote_error_characterization.2.1 none (by simp [renderBoxNote])

/-! ### C10: the truncation branch of normalizeRow is unreachable from renderTable -/

theorem colFold_ge_acc :
    ∀ (rows : List (List String)) (acc : Nat),
      acc ≤ rows.foldl (fun a r => if r.length > a then r.length else a) acc
  | [], _ => le_refl _
  | row :: rest, acc => by
    simp only [List.foldl_cons]
    refine le_trans ?_ (colFold_ge_acc rest _)
    split <;> omega

theorem length_le_colFold {r : List String} :
    ∀ {rows : List (List String)} (acc : Nat), r ∈ rows →
      r.length ≤ rows.foldl (fun a row => if row.length > a then row.length else a) acc
  | [], _, h => absurd h (List.not_mem_nil r)
  | row :: rest, acc, h => by
    simp only [List.foldl_cons]
    rcases List.mem_cons.mp h with h1 | h1
    · subst h1
      refine le_trans ?_ (colFold_ge_acc rest _)
      split <;> omega
    · exact length_le_colFold _ h1

theorem length_le_colCountOf {r : List String} {rows : List (List String)} (h : r ∈ rows) :
    r.length ≤ colCountOf rows :=
  length_le_colFold 0 h

theorem normalizeRow_pad {row : List String} {c : Nat} (h : row.length ≤ c) :
    normalizeRow row c = row ++ List.replicate (c - row.length) "" := by
  unfold normalizeRow
  by_cases h1 : row.length = c
  · simp [h1]
  · have h2 : ¬row.length > c := by omega
    simp [h1, h2]

/-- C10: every row collected by `renderTable` has at most `colCount` cells
(the column count is their maximum), so `normalizeRow` only ever pads, never
truncates, and no collected cell text is dropped. -/
theorem renderTable_never_truncates (node : Node) (ind : Nat) (r : List String)
    (hmem : r ∈ collectRows node.content ind) :
    r.length ≤ colCountOf (collectRows node.content ind) ∧
    normalizeRow r (colCountOf (collectRows node.content ind)) =
      r ++ List.replicate (colCountOf (collectRows node.content ind) - r.length) "" :=
  ⟨length_le_colCountOf hmem, normalizeRow_pad (length_le_colCountOf hmem)⟩

/-- A text-run node used in concrete examples. -/
def exText (s : String) : Node := Node.mk "text" [] [] s []

/-- A one-run paragraph node used in concrete examples. -/
def exPara (s : String) : Node := Node.mk "paragraph" [] [exText s] "" []

/-- A one-paragraph table cell used in concrete examples. -/
def exCell (s : String) : Node := Node.mk "table_cell" [] [exPara s] "" []

/-- A table row used in concrete examples. -/
def exRow (cells : List Node) : Node := Node.mk "table_row" [] cells "" []

/-- The spec's example table with row widths 3, 2 and 4. -/
def exTable : Node :=
  Node.mk "table" []
    [exRow [exCell "a", exCell "b", exCell "c"],
     exRow [exCell "d", exCell "e"],
     exRow [exCell "f", exCell "g", exCell "h", exCell "i"]] "" []

/-- Witness for C10 on the 3/2/4 example table. -/
theorem renderTable_never_truncates_witness :
    normalizeRow ["d", "e"] (colCountOf (collectRows exTable.content 0)) =
      ["d", "e"] ++ List.replicate (colCountOf (collectRows exTable.content 0) - 2) "" := by
  have hmem : ["d", "e"] ∈ collectRows exTable.content 0 := by
    simp [exTable, exRow, exCell, exPara, exText, collectRows, renderTableRow,
      renderTableRowCells, renderTableCell, renderCellContent, renderCellParts,
      renderInline, applyMarks, filterMarks, escapeTableCell, replaceChar, replaceCh,
      goJoin, joinCh, Node.type, Node.content]
  have h := renderTable_never_truncates exTable 0 ["d", "e"] hmem
  simpa using h.2

/-! ### C5: nested lists are dropped unless an item was already emitted -/

theorem renderListAux_drop_leading_nested {n : Node}
    (h : n.type = "bullet_list" ∨ n.type = "ordered_list" ∨ n.type = "check_list")
    (rest : List Node) (ind : Nat) (pre : String) :
    renderListAux (n :: rest) ind pre false = renderListAux rest ind pre false := by
  rcases h with h | h | h <;> simp [renderListAux, h]

theorem renderCheckListAux_drop_leading_nested {n : Node}
    (h : n.type = "bullet_list" ∨ n.type = "ordered_list" ∨ n.type = "check_list")
    (rest : List Node) (ind : Nat) :
    renderCheckListAux (n :: rest) ind false = renderCheckListAux rest ind false := by
  rcases h with h | h | h <;> simp [renderCheckListAux, h]

theorem renderListAux_drop_all_leading {nodesBefore : List Node}
    (h : ∀ n ∈ nodesBefore,
      n.type = "bullet_list" ∨ n.type = "ordered_list" ∨ n.type = "check_list") :
    ∀ (rest : List Node) (ind : Nat) (pre : String),
      renderListAux (nodesBefore ++ rest) ind pre false = renderListAux rest ind pre false := by
  induction nodesBefore with
  | nil => intro rest ind pre; rfl
  | cons n ns ih =>
    intro rest ind pre
    rw [List.cons_append,
      renderListAux_drop_leading_nested (h n (List.mem_cons_self n ns)) (ns ++ rest) ind pre]
    exact ih (fun m hm => h m (List.mem_cons_of_mem n hm)) rest ind pre

theorem renderCheckListAux_drop_all_leading {nodesBefore : List Node}
    (h : ∀ n ∈ nodesBefore,
      n.type = "bullet_list" ∨ n.type = "ordered_list" ∨ n.type = "check_list") :
    ∀ (rest : List Node) (ind : Nat),
      renderCheckListAux (nodesBefore ++ rest) ind false = renderCheckListAux rest ind false := by
  induction nodesBefore with
  | nil => intro rest ind; rfl
  | cons n ns ih =>
    intro rest ind
    rw [List.cons_append,
      renderCheckListAux_drop_leading_nested (h n (List.mem_cons_self n ns)) (ns ++ rest) ind]
    exact ih (fun m hm => h m (List.mem_cons_of_mem n hm)) rest ind

/-- C5: in `renderList`/`renderCheckList` a nested list child is honored only
after at least one item was emitted at that level: nested lists preceding every
item are silently dropped; once an item was emitted, a following nested list
is rendered at indentation + 2 and its lines spliced in verbatim. -/
theorem nested_list_requires_preceding_item :
    (∀ (ty : String) (attrs : List (String × AttrValue)) (txt : String) (mks : List Mark)
        (nodesBefore rest : List Node) (ind : Nat) (pre : String),
      (∀ n ∈ nodesBefore,
        n.type = "bullet_list" ∨ n.type = "ordered_list" ∨ n.type = "check_list") →
      renderList (Node.mk ty attrs (nodesBefore ++ rest) txt mks) ind pre =
        renderList (Node.mk ty attrs rest txt mks) ind pre) ∧
    (∀ (ty : String) (attrs : List (String × AttrValue)) (txt : String) (mks : List Mark)
        (nodesBefore rest : List Node) (ind : Nat),
      (∀ n ∈ nodesBefore,
        n.type = "bullet_list" ∨ n.type = "ordered_list" ∨ n.type = "check_list") →
      renderCheckList (Node.mk ty attrs (nodesBefore ++ rest) txt mks) ind =
        renderCheckList (Node.mk ty attrs rest txt mks) ind) ∧
    (∀ (ty : String) (attrs : List (String × AttrValue)) (txt : String) (mks : List Mark)
        (item nested : Node) (ind : Nat) (pre : String),
      item.type = "list_item" → nested.type = "bullet_list" →
      renderList (Node.mk ty attrs [item, nested] txt mks) ind pre =
        goJoin "\n" (renderListItem item ind pre ++
          (if renderList nested (ind + 2) "- " = "" then []
           else goSplit (renderList nested (ind + 2) "- ") '\n'))) := by
  refine ⟨?_, ?_, ?_⟩
  · intro ty attrs txt mks nodesBefore rest ind pre h
    simp only [renderList]
    rw [renderListAux_drop_all_leading h rest ind pre]
  · intro ty attrs txt mks nodesBefore rest ind h
    simp only [renderCheckList]
    rw [renderCheckListAux_drop_all_leading h rest ind]
  · intro ty attrs txt mks item nested ind pre hitem hnested
    simp [renderList, renderListAux, hitem, hnested]

/-- Witness for C5: a nested bullet list before any item is dropped, and the
same nested list after an item is rendered indented. -/
theorem nested_list_requires_preceding_item_witness :
    renderList (Node.mk "bullet_list" []
        ([Node.mk "bullet_list" [] [Node.mk "list_item" [] [exPara "x"] "" []] "" []] ++
          [Node.mk "list_item" [] [exPara "a"] "" []]) "" []) 0 "- " =
      renderList (Node.mk "bullet_list" []
        [Node.mk "list_item" [] [exPara "a"] "" []] "" []) 0 "- " ∧
    renderList (Node.mk "bullet_list" []
        [Node.mk "list_item" [] [exPara "a"] "" [],
         Node.mk "bullet_list" [] [Node.mk "list_item" [] [exPara "x"] "" []] "" []] "" [])
        0 "- " =
      goJoin "\n" (renderListItem (Node.mk "list_item" [] [exPara "a"] "" []) 0 "- " ++
        (if renderList (Node.mk "bullet_list" []
              [Node.mk "list_item" [] [exPara "x"] "" []] "" []) 2 "- " = "" then []
         else goSplit (renderList (Node.mk "bullet_list" []
              [Node.mk "list_item" [] [exPara "x"] "" []] "" []) 2 "- ") '\n')) := by
  constructor
  · exact nested_list_requires_preceding_item.1 "bullet_list" [] "" []
      [Node.mk "bullet_list" [] [Node.mk "list_item" [] [exPara "x"] "" []] "" []]
      [Node.mk "list_item" [] [exPara "a"] "" []] 0 "- "
      (by intro n hn; fin_cases hn; exact Or.inl rfl)
  · exact nested_list_requires_preceding_item.2.2 "bullet_list" [] "" []
      (Node.mk "list_item" [] [exPara "a"] "" [])
      (Node.mk "bullet_list" [] [Node.mk "list_item" [] [exPara "x"] "" []] "" [])
      0 "- " rfl rfl

/-! ### C4: blockquote line prefixing -/

theorem goSplit_ne_nil (s : String) (c : Char) : goSplit s c ≠ [] := by
  unfold goSplit
  intro h
  exact splitCh_ne_nil c s.data (List.map_eq_nil_iff.mp h)

theorem mem_goTrimRightSpaces_data {a : Char} {s : String}
    (h : a ∈ (goTrimRightSpaces s).data) : a ∈ s.data := by
  simp only [goTrimRightSpaces, List.mem_reverse] at h
  have h1 := (List.dropWhile_sublist (· == ' ')).subset h
  rwa [List.mem_reverse] at h1

theorem goSplit_prefixLines {pre : String} (hpre : '\n' ∉ pre.data) (text : String) :
    goSplit (prefixLines text pre) '\n' =
      (goSplit text '\n').map
        (fun line => if line = "" then goTrimRightSpaces pre else pre ++ line) := by
  unfold prefixLines
  apply goSplit_goJoin
  · intro s hs
    rcases List.mem_map.mp hs with ⟨line, hline, rfl⟩
    have hnl := mem_goSplit_no_nl hline
    by_cases h : line = ""
    · simp only [h, if_pos rfl]
      intro hmem
      exact hpre (mem_goTrimRightSpaces_data hmem)
    · rw [if_neg h]
      intro hmem
      rw [String.data_append] at hmem
      rcases List.mem_append.mp hmem with hmem | hmem
      · exact hpre hmem
      · exact hnl hmem
  · simp [goSplit_ne_nil]

/-- C4 counterexample: in a blockquote with two paragraphs the blank separator
line is rendered as a bare ">" with no trailing space, so not every output
line carries the prefix "> " (greater-than followed by a space). -/
theorem blockquote_prefix_counterexample :
    goSplit (renderBlockquote [exPara "a", exPara "b"] 0) '\n' = ["> a", ">", "> b"] ∧
    goStartsWith ">" "> " = false := by
  constructor
  · have h : renderBlockquote [exPara "a", exPara "b"] 0 = "> a\n>\n> b" := by
      simp [renderBlockquote, renderBlocks, renderBlocksList, renderBlock, exPara, exText,
        renderInline, applyMarks, filterMarks, prefixLines, goSplit, goJoin, splitCh, joinCh,
        goTrimRightSpaces]
    rw [h]
    rfl
  · rfl

/-- C4 (amended): `blockquote` and `call_out_box` render identically — block
children rendered, then every nonempty line prefixed with "> " while every
empty line becomes ">"; an empty body still yields the single line ">". -/
theorem blockquote_line_prefixing :
    (∀ (attrs : List (String × AttrValue)) (content : List Node) (txt : String)
        (mks : List Mark) (ind : Nat),
      renderBlock (Node.mk "blockquote" attrs content txt mks) ind =
        renderBlock (Node.mk "call_out_box" attrs content txt mks) ind) ∧
    (∀ (nodes : List Node) (ind : Nat),
      renderBlocks nodes ind = "" → renderBlockquote nodes ind = ">") ∧
    (∀ (nodes : List Node) (ind : Nat) (line : String),
      line ∈ goSplit (renderBlockquote nodes ind) '\n' →
      line = ">" ∨ ∃ r, line = "> " ++ r) := by
  refine ⟨?_, ?_, ?_⟩
  · intro attrs content txt mks ind
    simp [renderBlock]
  · intro nodes ind h
    simp [renderBlockquote, h]
  · intro nodes ind line hline
    unfold renderBlockquote at hline
    by_cases h : renderBlocks nodes ind = ""
    · rw [if_pos h] at hline
      have : goSplit ">" '\n' = [">"] := rfl
      rw [this] at hline
      exact Or.inl (List.mem_singleton.mp hline)
    · rw [if_neg h] at hline
      rw [goSplit_prefixLines (by decide)] at hline
      rcases List.mem_map.mp hline with ⟨l, _, rfl⟩
      by_cases hl : l = ""
      · exact Or.inl (by simp [hl]; rfl)
      · exact Or.inr ⟨l, by simp [hl]⟩

/-- Witness for C4 (amended) at concrete inputs. -/
theorem blockquote_line_prefixing_witness :
    renderBlockquote [] 0 = ">" ∧
    ("> a" = ">" ∨ ∃ r, "> a" = "> " ++ r) := by
  constructor
  · exact blockquote_line_prefixing.2.1 [] 0 (by simp [renderBlocks, renderBlocksList, goJoin, joinCh])
  · exact blockquote_line_prefixing.2.2 [exPara "a", exPara "b"] 0 "> a"
      (by rw [blockquote_prefix_counterexample.1]; simp)

/-! ### C2: table layout -/

theorem renderTableCell_no_nl (cell : Node) (ind : Nat) :
    '\n' ∉ (renderTableCell cell ind).data := by
  unfold renderTableCell escapeTableCell
  apply not_mem_replaceCh (by decide)
  exact not_mem_replaceCh_self (by decide) _

theorem mem_renderTableRowCells {s : String} :
    ∀ {cells : List Node} {ind : Nat}, s ∈ renderTableRowCells cells ind →
      ∃ cell, s = renderTableCell cell ind
  | [], _, h => absurd h (List.not_mem_nil s)
  | cell :: rest, ind, h => by
    unfold renderTableRowCells at h
    rcases List.mem_append.mp h with h1 | h1
    · split at h1
      · exact ⟨cell, List.mem_singleton.mp h1⟩
      · exact absurd h1 (List.not_mem_nil s)
    · exact mem_renderTableRowCells h1

theorem mem_collectRows {r : List String} {ind : Nat} :
    ∀ {nodes : List Node}, r ∈ collectRows nodes ind →
      ∃ row : Node, r = renderTableRowCells row.content ind := by
  intro nodes
  induction nodes with
  | nil => intro h; exact absurd h (List.not_mem_nil r)
  | cons node rest ih =>
    intro h
    unfold collectRows at h
    split at h
    · rcases List.mem_cons.mp h with h1 | h1
      · exact ⟨node, h1⟩
      · exact ih h1
    · exact ih h

theorem collectRows_cells_no_nl {r : List String} {nodes : List Node} {ind : Nat}
    (h : r ∈ collectRows nodes ind) : ∀ s ∈ r, '\n' ∉ s.data := by
  rcases mem_collectRows h with ⟨row, rfl⟩
  intro s hs
  rcases mem_renderTableRowCells hs with ⟨cell, rfl⟩
  exact renderTableCell_no_nl cell ind

theorem mem_normalizeRow {s : String} {row : List String} {c : Nat}
    (h : s ∈ normalizeRow row c) : s ∈ row ∨ s = "" := by
  unfold normalizeRow at h
  split at h
  · exact Or.inl h
  · split at h
    · exact Or.inl ((List.take_sublist _ _).subset h)
    · rcases List.mem_append.mp h with h1 | h1
      · exact Or.inl h1
      · exact Or.inr (List.eq_of_mem_replicate h1)

theorem formatTableRow_no_nl {row : List String} (h : ∀ s ∈ row, '\n' ∉ s.data) :
    '\n' ∉ (formatTableRow row).data := by
  unfold formatTableRow
  rw [String.data_append, String.data_append]
  intro hmem
  rcases List.mem_append.mp hmem with h1 | h1
  · rcases List.mem_append.mp h1 with h2 | h2
    · simp at h2
    · rcases mem_joinCh h2 with h3 | ⟨xs, hxs, h3⟩
      · simp at h3
      · rcases List.mem_map.mp hxs with ⟨t, ht, rfl⟩
        rcases List.mem_map.mp ht with ⟨u, hu, rfl⟩
        exact h u hu (mem_goTrimSpace_data h3)
  · simp at h1

theorem formatTableSeparator_no_nl (c : Nat) : '\n' ∉ (formatTableSeparator c).data := by
  unfold formatTableSeparator
  split
  · simp
  · rw [String.data_append, String.data_append]
    intro hmem
    rcases List.mem_append.mp hmem with h1 | h1
    · rcases List.mem_append.mp h1 with h2 | h2
      · simp at h2
      · rcases mem_joinCh h2 with h3 | ⟨xs, hxs, h3⟩
        · simp at h3
        · rcases List.mem_map.mp hxs with ⟨t, ht, rfl⟩
          have : t = "---" := List.eq_of_mem_replicate ht
          subst this
          simp at h3
    · simp at h1

/-- C2: the column count is the maximal row width; empty tables (no rows or
width 0) render as nothing; otherwise the first collected row is emitted as
the header, the second line is the `---` separator, shorter rows are padded
with empty cells and longer rows would be truncated. -/
theorem table_layout (node : Node) (ind : Nat) :
    (∀ r ∈ collectRows node.content ind, r.length ≤ colCountOf (collectRows node.content ind)) ∧
    (collectRows node.content ind = [] → renderTable node ind = "") ∧
    (colCountOf (collectRows node.content ind) = 0 → renderTable node ind = "") ∧
    (∀ (r0 : List String) (rest : List (List String)),
      collectRows node.content ind = r0 :: rest →
      colCountOf (collectRows node.content ind) ≠ 0 →
      goSplit (renderTable node ind) '\n' =
        formatTableRow (normalizeRow r0 (colCountOf (collectRows node.content ind))) ::
        formatTableSeparator (colCountOf (collectRows node.content ind)) ::
        rest.map (fun row =>
          formatTableRow (normalizeRow row (colCountOf (collectRows node.content ind))))) ∧
    (∀ row : List String, row.length < colCountOf (collectRows node.content ind) →
      normalizeRow row (colCountOf (collectRows node.content ind)) =
        row ++ List.replicate (colCountOf (collectRows node.content ind) - row.length) "") ∧
    (∀ row : List String, colCountOf (collectRows node.content ind) < row.length →
      normalizeRow row (colCountOf (collectRows node.content ind)) =
        row.take (colCountOf (collectRows node.content ind))) := by
  refine ⟨fun r hr => length_le_colCountOf hr, ?_, ?_, ?_, ?_, ?_⟩
  · intro h
    unfold renderTable
    rw [h]
  · intro h
    rcases heq : collectRows node.content ind with _ | ⟨r0, rest⟩
    · simp only [renderTable, heq]
    · rw [heq] at h
      simp only [renderTable, heq]
      rw [if_pos h]
  · intro r0 rest hrows h0
    rw [hrows] at h0
    have hr0 : r0 ∈ collectRows node.content ind := by rw [hrows]; exact List.mem_cons_self _ _
    have hcells : ∀ r ∈ collectRows node.content ind, ∀ s ∈ r, '\n' ∉ s.data :=
      fun r hr => collectRows_cells_no_nl hr
    rw [hrows]
    simp only [renderTable, hrows]
    rw [if_neg h0]
    apply goSplit_goJoin
    · intro s hs
      rcases List.mem_cons.mp hs with h1 | h1
      · subst h1
        apply formatTableRow_no_nl
        intro u hu
        rcases mem_normalizeRow hu with h2 | h2
        · exact hcells r0 hr0 u h2
        · subst h2; simp
      · rcases List.mem_cons.mp h1 with h2 | h2
        · subst h2; exact formatTableSeparator_no_nl _
        · rcases List.mem_map.mp h2 with ⟨row, hrow, rfl⟩
          apply formatTableRow_no_nl
          intro u hu
          rcases mem_normalizeRow hu with h3 | h3
          · exact hcells row (by rw [hrows]; exact List.mem_cons_of_mem _ hrow) u h3
          · subst h3; simp
    · simp
  · intro row h
    exact normalizeRow_pad (by omega)
  · intro row h
    unfold normalizeRow
    rw [if_neg (by omega), if_pos (by omega)]

/-- Witness for C2 on the 3/2/4 example table: four output lines, with the
separator as the second. -/
theorem table_layout_witness :
    goSplit (renderTable exTable 0) '\n' =
      ["| a | b | c |  |", "| --- | --- | --- | --- |", "| d | e |  |  |",
        "| f | g | h | i |"] ∧
    (goSplit (renderTable exTable 0) '\n')[1]? = some "| --- | --- | --- | --- |" := by
  have hrows : collectRows exTable.content 0 =
      [["a", "b", "c"], ["d", "e"], ["f", "g", "h", "i"]] := by
    simp [exTable, exRow, exCell, exPara, exText, collectRows, renderTableRow,
      renderTableRowCells, renderTableCell, renderCellContent, renderCellParts,
      renderInline, applyMarks, filterMarks, escapeTableCell, replaceChar, replaceCh,
      goJoin, joinCh, Node.type, Node.content]
  have h := (table_layout exTable 0).2.2.2.1 ["a", "b", "c"]
    [["d", "e"], ["f", "g", "h", "i"]] hrows (by rw [hrows]; decide)
  rw [hrows] at h
  constructor
  · rw [h]
    rfl
  · rw [h]
    rfl

/-! ### C3: zero-width-space boundary padding -/

/-- The padding condition of `padWithZeroWidthSpace` at the front of a text:
its first rune is a non-whitespace yakumono character. -/
def padsFirst (s : String) : Bool :=
  match firstRune s with
  | some r => !goIsSpace r && isYakumono r
  | none => false

/-- The padding condition of `padWithZeroWidthSpace` at the end of a text. -/
def padsLast (s : String) : Bool :=
  match lastRune s with
  | some r => !goIsSpace r && isYakumono r
  | none => false

theorem eq_empty_of_data_eq_nil {s : String} (h : s.data = []) : s = "" := by
  cases s
  simp only at h
  rw [h]

theorem data_ne_nil_of_ne_empty {s : String} (h : s ≠ "") : s.data ≠ [] :=
  fun hd => h (eq_empty_of_data_eq_nil hd)

theorem zwsp_data : zwsp.data = ['​'] := rfl

theorem padFront_eq {s : String} (hs : s ≠ "") :
    padFront s = if padsFirst s then zwsp ++ s else s := by
  rcases hdata : s.data with _ | ⟨x, xs⟩
  · exact absurd (eq_empty_of_data_eq_nil hdata) hs
  · have hfirst : firstRune s = some x := by simp [firstRune, hdata]
    by_cases hx : x = '​'
    · have hsw : goStartsWith s zwsp = true := by
        simp [goStartsWith, zwsp_data, hdata, hx]
    
      have hpf : padsFirst s = false := by
        simp only [padsFirst, hfirst, hx]
        decide
      simp [padFront, hsw, hpf]
    · have hsw : goStartsWith s zwsp = false := by
        simp only [goStartsWith, zwsp_data, hdata]
        simp [hx]
      simp [padFront, hsw, hfirst, padsFirst]

theorem padBack_eq {s : String} (hs : s ≠ "") :
    padBack s = if padsLast s then s ++ zwsp else s := by
  rcases hrev : s.data.reverse with _ | ⟨y, ys⟩
  · rw [List.reverse_eq_nil_iff] at hrev
    exact absurd (eq_empty_of_data_eq_nil hrev) hs
  · have hlast : lastRune s = some y := by
      unfold lastRune
      rw [← List.head?_reverse, hrev]
      rfl
    by_cases hy : y = '​'
    · have hsw : goEndsWith s zwsp = true := by
        simp [goEndsWith, zwsp_data, hrev, hy]
      have hpl : padsLast s = false := by
        simp only [padsLast, hlast, hy]
        decide
      simp [padBack, hsw, hpl]
    · have hsw : goEndsWith s zwsp = false := by
        simp only [goEndsWith, zwsp_data, hrev]
        simp [hy]
      simp [padBack, hsw, hlast, padsLast]

theorem zwsp_append_ne_empty (s : String) : zwsp ++ s ≠ "" := by
  intro h
  have h2 := congrArg String.data h
  rw [String.data_append, zwsp_data] at h2
  simp at h2

theorem padsLast_zwsp_append {s : String} (hs : s ≠ "") :
    padsLast (zwsp ++ s) = padsLast s := by
  unfold padsLast lastRune
  rw [String.data_append, List.getLast?_append_of_ne_nil _ (data_ne_nil_of_ne_empty hs)]

/-- The padding function in closed form: a zero-width space is prepended
exactly when `padsFirst` holds and appended exactly when `padsLast` holds. -/
theorem pad_characterization (s : String) :
    padWithZeroWidthSpace s =
      (if padsFirst s then zwsp else "") ++ s ++ (if padsLast s then zwsp else "") := by
  by_cases hs : s = ""
  · subst hs
    simp [padWithZeroWidthSpace, padsFirst, padsLast, firstRune, lastRune]
  · unfold padWithZeroWidthSpace
    rw [if_neg hs, padFront_eq hs]
    by_cases hf : padsFirst s = true
    · rw [if_pos hf, padBack_eq (zwsp_append_ne_empty s), padsLast_zwsp_append hs, if_pos hf]
      by_cases hl : padsLast s = true
      · rw [if_pos hl, if_pos hl]
      · rw [if_neg hl, if_neg hl, String.append_empty]
    · rw [if_neg hf, padBack_eq hs, if_neg hf, String.empty_append]
      by_cases hl : padsLast s = true
      · rw [if_pos hl, if_pos hl]
      · rw [if_neg hl, if_neg hl, String.append_empty]

theorem replaceCh_ne_nil {c : Char} {rep : List Char} (hrep : rep ≠ []) :
    ∀ {l : List Char}, l ≠ [] → replaceCh c rep l ≠ []
  | [], h => absurd rfl h
  | x :: xs, _ => by
    simp only [replaceCh]
    intro hcon
    rcases List.append_eq_nil.mp hcon with ⟨h1, _⟩
    by_cases hx : x = c
    · rw [if_pos hx] at h1
      exact hrep h1
    · rw [if_neg hx] at h1
      simp at h1

theorem head?_replaceCh {c r₀ : Char} {rep : List Char} (hhead : rep.head? = some r₀)
    (x : Char) (xs : List Char) :
    (replaceCh c rep (x :: xs)).head? = some (if x = c then r₀ else x) := by
  simp only [replaceCh]
  by_cases hx : x = c
  · rw [if_pos hx, if_pos hx, List.head?_append, hhead]
    rfl
  · rw [if_neg hx, if_neg hx]
    rfl

theorem getLast?_replaceCh {c rl : Char} {rep : List Char} (hrep : rep ≠ [])
    (hlast : rep.getLast? = some rl) :
    ∀ {l : List Char} {y : Char}, l.getLast? = some y →
      (replaceCh c rep l).getLast? = some (if y = c then rl else y)
  | [], y, h => by simp at h
  | [x], y, h => by
    have hxy : x = y := by simpa using h
    subst hxy
    show ((if x = c then rep else [x]) ++ replaceCh c rep []).getLast? = _
    simp only [replaceCh, List.append_nil]
    by_cases hx : x = c
    · rw [if_pos hx, if_pos hx, hlast]
    · rw [if_neg hx, if_neg hx]
      rfl
  | x :: x2 :: xs, y, h => by
    rw [List.getLast?_cons_cons] at h
    show ((if x = c then rep else [x]) ++ replaceCh c rep (x2 :: xs)).getLast? = _
    rw [List.getLast?_append_of_ne_nil _ (replaceCh_ne_nil hrep (by simp))]
    exact getLast?_replaceCh hrep hlast h

theorem padsFirst_replaceChar {c r₀ : Char} {rep : String} (hhead : rep.data.head? = some r₀)
    (hc : isYakumono c = false) (hr : isYakumono r₀ = false) (s : String) :
    padsFirst (replaceChar s c rep) = padsFirst s := by
  rcases hdata : s.data with _ | ⟨x, xs⟩
  · have hnil : (replaceChar s c rep).data = [] := by simp [replaceChar, hdata, replaceCh]
    simp [padsFirst, firstRune, hnil, hdata]
  · have h1 : (replaceChar s c rep).data = replaceCh c rep.data (x :: xs) := by
      simp [replaceChar, hdata]
    have h2 : firstRune (replaceChar s c rep) = some (if x = c then r₀ else x) := by
      unfold firstRune
      rw [h1, head?_replaceCh hhead]
    have h3 : firstRune s = some x := by simp [firstRune, hdata]
    by_cases hx : x = c
    · simp only [padsFirst, h2, h3, if_pos hx, hx]
      simp [hr, hc]
    · simp [padsFirst, h2, h3, if_neg hx]

theorem padsLast_replaceChar {c rl : Char} {rep : String} (hrep : rep.data ≠ [])
    (hlast : rep.data.getLast? = some rl) (hc : isYakumono c = false)
    (hr : isYakumono rl = false) (s : String) :
    padsLast (replaceChar s c rep) = padsLast s := by
  rcases hl : s.data.getLast? with _ | y
  · have hnil : s.data = [] := List.getLast?_eq_none_iff.mp hl
    have hnil2 : (replaceChar s c rep).data = [] := by simp [replaceChar, hnil, replaceCh]
    simp [padsLast, lastRune, hnil, hnil2]
  · have h2 : lastRune (replaceChar s c rep) = some (if y = c then rl else y) :=
      getLast?_replaceCh hrep hlast hl
    have h3 : lastRune s = some y := hl
    by_cases hy : y = c
    · simp only [padsLast, h2, h3, if_pos hy, hy]
      simp [hr, hc]
    · simp [padsLast, h2, h3, if_neg hy]

theorem padsFirst_escapeForMarkdown (t emD : String) (hstr hstk : Bool) :
    padsFirst (escapeForMarkdown t emD hstr hstk) = padsFirst t := by
  have hA : ∀ u : String, padsFirst (replaceChar u '\\' "\\\\") = padsFirst u :=
    padsFirst_replaceChar rfl (by decide) (by decide)
  have hB : ∀ u : String, padsFirst (replaceChar u '*' "\\*") = padsFirst u :=
    padsFirst_replaceChar rfl (by decide) (by decide)
  have hC : ∀ u : String, padsFirst (replaceChar u '_' "\\_") = padsFirst u :=
    padsFirst_replaceChar rfl (by decide) (by decide)
  have hD : ∀ u : String, padsFirst (replaceChar u '~' "\\~") = padsFirst u :=
    padsFirst_replaceChar rfl (by decide) (by decide)
  simp only [escapeForMarkdown]
  split <;> split <;> split <;> simp [hA, hB, hC, hD]

theorem padsLast_escapeForMarkdown (t emD : String) (hstr hstk : Bool) :
    padsLast (escapeForMarkdown t emD hstr hstk) = padsLast t := by
  have hA : ∀ u : String, padsLast (replaceChar u '\\' "\\\\") = padsLast u :=
    padsLast_replaceChar (by decide) rfl (by decide) (by decide)
  have hB : ∀ u : String, padsLast (replaceChar u '*' "\\*") = padsLast u :=
    padsLast_replaceChar (by decide) rfl (by decide) (by decide)
  have hC : ∀ u : String, padsLast (replaceChar u '_' "\\_") = padsLast u :=
    padsLast_replaceChar (by decide) rfl (by decide) (by decide)
  have hD : ∀ u : String, padsLast (replaceChar u '~' "\\~") = padsLast u :=
    padsLast_replaceChar (by decide) rfl (by decide) (by decide)
  simp only [escapeForMarkdown]
  split <;> split <;> split <;> simp [hA, hB, hC, hD]

/-- The value of the local `text` of Go `applyMarks` just before its padding
step: the input escaped for Markdown unless a `code` mark is present
(steps computed from the filtered mark set exactly as in `applyMarks`). -/
def markCore (text : String) (marks : List Mark) : String :=
  let filtered := filterMarks marks
  let hasStrong := hasMarkType filtered "strong"
  let hasEm := hasMarkType filtered "em"
  let hasStrike := hasMarkType filtered "strikethrough"
  let hasCode := hasMarkType filtered "code"
  let emDelimiter := if hasStrong && hasEm then "_" else "*"
  if !hasCode then escapeForMarkdown text emDelimiter hasStrong hasStrike else text

/-- C3: when the remaining marks contain one of strong/em/strikethrough/code
and no link, `applyMarks` pads the (escaped) text with a zero-width space
exactly when the first (resp. last) character is non-whitespace yakumono —
conditions the escaping step preserves, so they are equivalently conditions
on the original text; with a link present no padding happens at all. -/
theorem zwsp_padding_characterization :
    (∀ s : String, padWithZeroWidthSpace s =
        (if padsFirst s then zwsp else "") ++ s ++ (if padsLast s then zwsp else "")) ∧
    (∀ (t : String) (ms : List Mark),
      (hasMarkType (filterMarks ms) "strong" || hasMarkType (filterMarks ms) "em" ||
        hasMarkType (filterMarks ms) "strikethrough" ||
        hasMarkType (filterMarks ms) "code") = true →
      hasMarkType (filterMarks ms) "link" = false →
      (applyMarks t ms =
        List.foldr
          (wrapMark (if hasMarkType (filterMarks ms) "strong" &&
              hasMarkType (filterMarks ms) "em" then "_" else "*"))
          (padWithZeroWidthSpace (markCore t ms)) (sortMarks (filterMarks ms)) ∧
        padsFirst (markCore t ms) = padsFirst t ∧
        padsLast (markCore t ms) = padsLast t)) ∧
    (∀ (t : String) (ms : List Mark),
      hasMarkType (filterMarks ms) "link" = true →
      applyMarks t ms =
        List.foldr
          (wrapMark (if hasMarkType (filterMarks ms) "strong" &&
              hasMarkType (filterMarks ms) "em" then "_" else "*"))
          (markCore t ms) (sortMarks (filterMarks ms))) := by
  refine ⟨pad_characterization, ?_, ?_⟩
  · intro t ms hflags hlink
    have hne : (filterMarks ms).isEmpty = false := by
      rcases hfm : filterMarks ms with _ | _
      · rw [hfm] at hflags
        simp [hasMarkType] at hflags
      · simp
    refine ⟨?_, ?_, ?_⟩
    · simp only [applyMarks, markCore, hne, hlink, hflags, Bool.not_false, Bool.and_true,
        Bool.false_eq_true, if_false, if_true]
    · simp only [markCore]
      split
      · exact padsFirst_escapeForMarkdown t _ _ _
      · rfl
    · simp only [markCore]
      split
      · exact padsLast_escapeForMarkdown t _ _ _
      · rfl
  · intro t ms hlink
    have hne : (filterMarks ms).isEmpty = false := by
      rcases hfm : filterMarks ms with _ | _
      · rw [hfm] at hlink
        simp [hasMarkType] at hlink
      · simp
    simp only [applyMarks, markCore, hne, hlink, Bool.not_true, Bool.and_false,
      Bool.false_eq_true, if_false]

/-- Witness for C3: a strong-marked run whose hypotheses hold. -/
theorem zwsp_padding_characterization_witness :
    applyMarks "。" [Mark.mk "strong" []] =
      List.foldr
        (wrapMark (if hasMarkType (filterMarks [Mark.mk "strong" []]) "strong" &&
            hasMarkType (filterMarks [Mark.mk "strong" []]) "em" then "_" else "*"))
        (padWithZeroWidthSpace (markCore "。" [Mark.mk "strong" []]))
        (sortMarks (filterMarks [Mark.mk "strong" []])) ∧
    applyMarks "。" [Mark.mk "link" [("href", AttrValue.str "https://x")], Mark.mk "strong" []] =
      List.foldr
        (wrapMark (if hasMarkType (filterMarks
              [Mark.mk "link" [("href", AttrValue.str "https://x")], Mark.mk "strong" []])
              "strong" &&
            hasMarkType (filterMarks
              [Mark.mk "link" [("href", AttrValue.str "https://x")], Mark.mk "strong" []])
              "em" then "_" else "*"))
        (markCore "。" [Mark.mk "link" [("href", AttrValue.str "https://x")], Mark.mk "strong" []])
        (sortMarks (filterMarks
          [Mark.mk "link" [("href", AttrValue.str "https://x")], Mark.mk "strong" []])) := by
  constructor
  · exact (zwsp_padding_characterization.2.1 "。" [Mark.mk "strong" []]
      (by decide) (by decide)).1
  · exact zwsp_padding_characterization.2.2 "。"
      [Mark.mk "link" [("href", AttrValue.str "https://x")], Mark.mk "strong" []] (by decide)

/-! ### C1: fixed outer-to-inner wrapping order -/

instance : IsTotal Mark markLE :=
  ⟨fun a b => Nat.le_total (markOrder a.type) (markOrder b.type)⟩

instance : IsTrans Mark markLE :=
  ⟨fun _ _ _ h1 h2 => Nat.le_trans h1 h2⟩

/-- Strict version of `markLE`. -/
def markLT (a b : Mark) : Prop := markOrder a.type < markOrder b.type

instance : IsAntisymm Mark markLT :=
  ⟨fun _ _ h1 h2 => absurd h1 (Nat.lt_asymm h2)⟩

theorem sortMarks_sorted (l : List Mark) : List.Sorted markLE (sortMarks l) :=
  List.sorted_insertionSort markLE l

theorem sortMarks_perm (l : List Mark) : (sortMarks l).Perm l :=
  List.perm_insertionSort markLE l

theorem hasMarkType_perm {l l' : List Mark} (h : l.Perm l') (s : String) :
    hasMarkType l s = hasMarkType l' s := by
  apply Bool.eq_iff_iff.mpr
  simp only [hasMarkType, List.any_eq_true]
  constructor <;> rintro ⟨m, hm, hms⟩
  · exact ⟨m, h.mem_iff.mp hm, hms⟩
  · exact ⟨m, h.mem_iff.mpr hm, hms⟩

theorem isEmpty_perm {l l' : List Mark} (h : l.Perm l') : l.isEmpty = l'.isEmpty := by
  cases l with
  | nil =>
    rw [h.symm.eq_nil]
  | cons a as =>
    cases l' with
    | nil => exact absurd h.eq_nil (by simp)
    | cons b bs => rfl

theorem sortMarks_eq_of_perm {l l' : List Mark}
    (hd : l.Pairwise (fun a b => markOrder a.type ≠ markOrder b.type)) (h : l.Perm l') :
    sortMarks l = sortMarks l' := by
  have hp : (sortMarks l).Perm (sortMarks l') :=
    (sortMarks_perm l).trans (h.trans (sortMarks_perm l').symm)
  have hd1 : (sortMarks l).Pairwise (fun a b => markOrder a.type ≠ markOrder b.type) :=
    ((sortMarks_perm l).pairwise_iff (fun hab => hab.symm)).mpr hd
  have hd2 : (sortMarks l').Pairwise (fun a b => markOrder a.type ≠ markOrder b.type) :=
    ((sortMarks_perm l').pairwise_iff (fun hab => hab.symm)).mpr
      ((h.pairwise_iff (fun hab => hab.symm)).mp hd)
  have hlt1 : List.Sorted markLT (sortMarks l) :=
    ((sortMarks_sorted l).and hd1).imp
      (fun hab => Nat.lt_of_le_of_ne hab.1 hab.2)
  have hlt2 : List.Sorted markLT (sortMarks l') :=
    ((sortMarks_sorted l').and hd2).imp
      (fun hab => Nat.lt_of_le_of_ne hab.1 hab.2)
  exact List.eq_of_perm_of_sorted hp hlt1 hlt2

theorem applyMarks_perm {t : String} {ms ms' : List Mark}
    (hd : (filterMarks ms).Pairwise (fun a b => markOrder a.type ≠ markOrder b.type))
    (h : (filterMarks ms).Perm (filterMarks ms')) :
    applyMarks t ms = applyMarks t ms' := by
  have hE := isEmpty_perm h
  have hS := hasMarkType_perm h "strong"
  have hEm := hasMarkType_perm h "em"
  have hK := hasMarkType_perm h "strikethrough"
  have hC := hasMarkType_perm h "code"
  have hL := hasMarkType_perm h "link"
  have hsort := sortMarks_eq_of_perm hd h
  simp only [applyMarks, hE, hS, hEm, hK, hC, hL, hsort]

/-- C1: the wrapping loop applies marks in the fixed `markOrder` sequence
(link outermost, then strong, em, underline, strikethrough, code innermost)
independently of their input order; in particular strong+em yields the shape
`**_text_**`, with an underscore (never a third asterisk) as third character. -/
theorem mark_wrapping_fixed_order :
    (∀ ms : List Mark, List.Sorted markLE (sortMarks (filterMarks ms)) ∧
      (sortMarks (filterMarks ms)).Perm (filterMarks ms)) ∧
    (∀ (t : String) (ms ms' : List Mark),
      (filterMarks ms).Pairwise (fun a b => markOrder a.type ≠ markOrder b.type) →
      (filterMarks ms).Perm (filterMarks ms') →
      applyMarks t ms = applyMarks t ms') ∧
    (∀ t : String,
      applyMarks t [Mark.mk "strong" [], Mark.mk "em" []] =
        "**" ++ ("_" ++ padWithZeroWidthSpace (escapeForMarkdown t "_" true false) ++ "_") ++
          "**" ∧
      applyMarks t [Mark.mk "em" [], Mark.mk "strong" []] =
        "**" ++ ("_" ++ padWithZeroWidthSpace (escapeForMarkdown t "_" true false) ++ "_") ++
          "**" ∧
      (applyMarks t [Mark.mk "strong" [], Mark.mk "em" []]).data.take 3 = ['*', '*', '_']) := by
  refine ⟨fun ms => ⟨sortMarks_sorted _, sortMarks_perm _⟩, fun t ms ms' => applyMarks_perm, ?_⟩
  intro t
  refine ⟨rfl, rfl, ?_⟩
  show ("**" ++ ("_" ++ padWithZeroWidthSpace (escapeForMarkdown t "_" true false) ++ "_") ++
    "**").data.take 3 = ['*', '*', '_']
  rw [String.data_append, String.data_append, String.data_append, String.data_append]
  rfl

/-- Witness for C1: the two orders of strong+em give identical output. -/
theorem mark_wrapping_fixed_order_witness :
    applyMarks "x" [Mark.mk "em" [], Mark.mk "strong" []] =
      applyMarks "x" [Mark.mk "strong" [], Mark.mk "em" []] :=
  mark_wrapping_fixed_order.2.1 "x" [Mark.mk "em" [], Mark.mk "strong" []]
    [Mark.mk "strong" [], Mark.mk "em" []] (by decide) (by decide)
